import Mathlib

/-!
Shallow embedding of the total-reclaw memory engine.

The TypeScript sources are translated definition by definition:
the decay classifiers (src/unnamed/part_000 and the legacy copy in
src/index.ts), the synonym expander (src/src/search-tags.ts), the lexical
store FactsDB (src/unnamed/part_001), the vector store VectorDB
(src/unnamed/part_002) and the hybrid fuser mergeResults
(src/unnamed/part_001).  The SQLite table is modelled as a list of rows,
SQL statements as list transformations, JavaScript numbers as rationals,
nullable columns as Option, and the injected clock as an explicit
parameter.  JavaScript regular expressions used by the classifiers are
alternations of literal phrases guarded by word boundaries; they are
modelled by an explicit scanner over the character list.
-/

/-- The five decay classes of `config.ts` / spec section 3. -/
inductive DecayClass where
  | permanent
  | stable
  | active
  | session
  | checkpoint
deriving DecidableEq, Repr

/-- JavaScript word character for the regex word boundary `\b`
(ASCII `[A-Za-z0-9_]`, the default for non-unicode regexes). -/
def jsWordChar (c : Char) : Bool :=
  ('a' ≤ c && c ≤ 'z') || ('A' ≤ c && c ≤ 'Z') || ('0' ≤ c && c ≤ '9') || c == '_'

/-- If `p` is a literal character sequence starting `s`, return the rest of `s`. -/
def dropLit : List Char → List Char → Option (List Char)
  | [], s => some s
  | _ :: _, [] => none
  | pc :: pr, sc :: sr => if pc == sc then dropLit pr sr else none

/-- True when the list is empty or starts with a non-word character;
this is the right side of a word boundary after a word character. -/
def headNotWord : List Char → Bool
  | [] => true
  | c :: _ => !jsWordChar c

/-- The literal phrase `p` (starting and ending in word characters) occurs
at the head of `s`, followed by a word boundary. -/
def phraseHere (p s : List Char) : Bool :=
  match dropLit p s with
  | some rest => headNotWord rest
  | none => false

/-- Scan all positions of the input; `here` is tried at every position that
follows a word boundary (a non-word character or the start of the input). -/
def scanBounded (here : List Char → Bool) : Bool → List Char → Bool
  | prevWord, [] => (!prevWord) && here []
  | prevWord, c :: rest =>
      ((!prevWord) && here (c :: rest)) || scanBounded here (jsWordChar c) rest

/-- Scan all positions of the input unconditionally. -/
def scanAll (here : List Char → Bool) : List Char → Bool
  | [] => here []
  | c :: rest => here (c :: rest) || scanAll here rest

/-- Test of the regex `\b p \b` for a literal phrase `p`. -/
def testPhrase (p s : String) : Bool :=
  scanBounded (phraseHere p.toList) false s.toList

/-- Test of a regex alternation `\b(p1|p2|...)\b` of literal phrases. -/
def testAnyPhrase (ps : List String) (s : String) : Bool :=
  ps.any (fun p => testPhrase p s)

/-- Head test for the alternative `todo:?` inside `\b(...)\b`: either the
word `todo` followed by a boundary, or `todo:` where the boundary after
the colon requires a following word character. -/
def todoOptHere (s : List Char) : Bool :=
  phraseHere "todo".toList s ||
    (match dropLit "todo:".toList s with
     | some (c :: _) => jsWordChar c
     | some [] => false
     | none => false)

/-- Test of the regex `\btodo:?\b`. -/
def testTodoOpt (s : String) : Bool :=
  scanBounded todoOptHere false s.toList

/-- JavaScript `hay.includes(needle)`. -/
def strIncludes (hay needle : String) : Bool :=
  scanAll (fun t => (dropLit needle.toList t).isSome) hay.toList

/-- JavaScript `hay.startsWith(p)`. -/
def strStarts (hay p : String) : Bool :=
  (dropLit p.toList hay.toList).isSome

/-- ASCII lower-casing, the behaviour of both `String.prototype.toLowerCase`
and the SQLite NOCASE collation on the ASCII inputs the engine handles. -/
def lowerStr (s : String) : String :=
  String.mk (s.data.map Char.toLower)

/-- Key substrings mapping to `permanent` in `classifyDecay`
(src/unnamed/part_000). -/
def permanentKeys : List String :=
  ["birthday", "born", "email", "phone", "name", "real_name", "full_name",
   "api_key", "architecture", "language", "location", "stack"]

/-- Key substrings mapping to `session` in `classifyDecay`. -/
def sessionKeys : List String :=
  ["current_file", "temp", "debug", "working_on_right_now"]

/-- Key substrings mapping to `active` in `classifyDecay`. -/
def activeKeys : List String :=
  ["current_task", "active_branch", "sprint", "milestone",
   "task", "todo", "wip", "branch", "blocker"]

/-- The current decay classifier, `classifyDecay` of src/unnamed/part_000. -/
def classifyDecay (entity key value : Option String) (text : String) : DecayClass :=
  let _ := value
  let keyLower := lowerStr (key.getD "")
  let textLower := lowerStr text
  let entityLower := lowerStr (entity.getD "")
  if permanentKeys.any (fun k => strIncludes keyLower k) then .permanent
  else if testAnyPhrase ["born on", "birthday is", "email is", "phone number"] textLower then .permanent
  else if testAnyPhrase ["decided", "architecture", "always use", "never use", "always", "never"] textLower then .permanent
  else if entityLower == "decision" || entityLower == "convention" then .permanent
  else if sessionKeys.any (fun k => strIncludes keyLower k) then .session
  else if testAnyPhrase ["currently debugging", "right now", "this session"] textLower then .session
  else if activeKeys.any (fun k => strIncludes keyLower k) then .active
  else if entityLower == "project" || entityLower == "sprint" then .active
  else if testAnyPhrase ["working on", "need to fix", "wip"] textLower || testTodoOpt textLower then .active
  else if strStarts keyLower "checkpoint:" || strIncludes keyLower "preflight" then .checkpoint
  else .stable

/-- Key substrings mapping to `permanent` in the legacy classifier
(src/index.ts). -/
def legacyPermanentKeys : List String :=
  ["name", "email", "api_key", "api_endpoint", "architecture", "decision",
   "birthday", "born", "phone", "language", "location"]

/-- Key substrings mapping to `active` in the legacy classifier. -/
def legacyActiveKeys : List String :=
  ["task", "todo", "wip", "branch", "sprint", "blocker"]

/-- The legacy decay classifier, `classifyDecay` of the monolithic
src/index.ts.  Differences from the current classifier are kept verbatim:
different key lists, a narrower permanent text regex, a raw (non-lowercased)
entity comparison, a wider active text regex, and a `checkpoint` substring
test instead of a `checkpoint:` anchored test. -/
def classifyDecayLegacy (entity key value : Option String) (text : String) : DecayClass :=
  let _ := value
  let keyLower := lowerStr (key.getD "")
  let textLower := lowerStr text
  if legacyPermanentKeys.any (fun k => strIncludes keyLower k) then .permanent
  else if testAnyPhrase ["decided", "architecture", "always use", "never use"] textLower then .permanent
  else if entity == some "decision" || entity == some "convention" then .permanent
  else if sessionKeys.any (fun k => strIncludes keyLower k) then .session
  else if testAnyPhrase ["currently debugging", "right now", "this session"] textLower then .session
  else if legacyActiveKeys.any (fun k => strIncludes keyLower k) then .active
  else if testAnyPhrase ["working on", "need to", "todo", "blocker", "sprint"] textLower then .active
  else if strIncludes keyLower "checkpoint" || strIncludes keyLower "preflight" then .checkpoint
  else .stable

/-- Modelled from the spec: the table `TTL_DEFAULTS` lives in `config.ts`,
which is not under src/; spec section 3 fixes it as permanent = never,
stable = 90 days, active = 14 days, session = 24 hours, checkpoint = 4 hours
(in seconds). -/
def TTL_DEFAULTS : DecayClass → Option Int
  | .permanent => none
  | .stable => some (90 * 86400)
  | .active => some (14 * 86400)
  | .session => some (24 * 3600)
  | .checkpoint => some (4 * 3600)

/-- `calculateExpiry` of src/unnamed/part_000. -/
def calculateExpiry (decayClass : DecayClass) (nowSec : Int) : Option Int :=
  match TTL_DEFAULTS decayClass with
  | none => none
  | some ttl => some (nowSec + ttl)

/-- Entries of the static `SYNONYM_MAP` of src/src/search-tags.ts, in
declaration order (JavaScript object iteration order). -/
def SYNONYM_MAP : List (String × List String) :=
  [("postgresql", ["database", "db", "sql", "postgres", "rdbms"]),
   ("mysql", ["database", "db", "sql", "rdbms"]),
   ("sqlite", ["database", "db", "sql", "rdbms"]),
   ("mongodb", ["database", "db", "nosql", "document store"]),
   ("redis", ["cache", "caching", "key-value", "in-memory"]),
   ("github actions", ["ci", "cd", "cicd", "continuous integration", "continuous delivery", "pipeline"]),
   ("gitlab ci", ["ci", "cd", "cicd", "continuous integration", "pipeline"]),
   ("jenkins", ["ci", "cd", "cicd", "continuous integration", "pipeline"]),
   ("react", ["frontend", "ui", "spa", "component", "jsx"]),
   ("next.js", ["frontend", "ssr", "react framework", "fullstack"]),
   ("vue", ["frontend", "ui", "spa", "component"]),
   ("tailwind", ["css", "styling", "design", "css framework"]),
   ("bootstrap", ["css", "styling", "design", "css framework"]),
   ("fastapi", ["backend", "api", "python", "rest"]),
   ("express", ["backend", "api", "node", "rest"]),
   ("turborepo", ["monorepo", "build", "workspace"]),
   ("bun", ["runtime", "package manager", "bundler"]),
   ("node", ["runtime", "javascript", "backend"]),
   ("tabs", ["indentation", "formatting", "code style", "whitespace"]),
   ("spaces", ["indentation", "formatting", "code style", "whitespace"]),
   ("snake_case", ["naming", "convention", "code style", "formatting"]),
   ("camelcase", ["naming", "convention", "code style", "formatting"]),
   ("vim", ["editor", "keybindings", "neovim"]),
   ("vscode", ["editor", "ide"]),
   ("cursor", ["editor", "ide", "ai editor"]),
   ("typescript", ["language", "typed", "javascript", "js", "ts"]),
   ("javascript", ["language", "js", "scripting"]),
   ("mit", ["license", "open source", "oss"]),
   ("docker", ["container", "containerization", "deployment"])]

/-- Add synonyms to the accumulated tag list, preserving first-insertion
order and dropping repeats (the JavaScript Set). -/
def addTags (acc : List String) (syns : List String) : List String :=
  syns.foldl (fun a s => if a.contains s then a else a ++ [s]) acc

/-- `generateSearchTags` of src/src/search-tags.ts.  The JavaScript
`[text, entity, key, value].filter(Boolean)` drops both null fields and
empty strings. -/
def generateSearchTags (text : String) (entity key value : Option String) : String :=
  let parts := ([some text, entity, key, value].filterMap id).filter (fun s => s != "")
  let combined := lowerStr (String.intercalate " " parts)
  let tags := SYNONYM_MAP.foldl
    (fun acc tsyns => if strIncludes combined (lowerStr tsyns.1) then addTags acc tsyns.2 else acc) []
  String.intercalate " " tags

/-- A row of the `facts` table (src/unnamed/part_001).  Numbers are
rationals, nullable columns are Option, timestamps are whole seconds. -/
structure FactRow where
  id : String
  text : String
  category : String
  importance : ℚ
  entity : Option String
  key : Option String
  value : Option String
  source : String
  createdAt : Int
  decayClass : DecayClass
  expiresAt : Option Int
  lastConfirmedAt : Option Int
  confidence : ℚ
  searchTags : String
deriving DecidableEq, Repr

/-- The `MemoryEntry` shape of src/src/types.ts, as produced for search and
lookup results. -/
structure MemoryEntry where
  id : String
  text : String
  category : String
  importance : ℚ
  entity : Option String
  key : Option String
  value : Option String
  source : String
  createdAt : Int
  decayClass : DecayClass
  expiresAt : Option Int
  lastConfirmedAt : Int
  confidence : ℚ
deriving DecidableEq, Repr

/-- Result backends. -/
inductive Backend where
  | sqlite
  | lancedb
deriving DecidableEq, Repr

/-- The `SearchResult` shape of src/src/types.ts. -/
structure SearchResult where
  entry : MemoryEntry
  score : ℚ
  backend : Backend
deriving DecidableEq, Repr

/-- JavaScript `x || d` on numbers: zero is falsy. -/
def orQ (q d : ℚ) : ℚ :=
  if q = 0 then d else q

/-- JavaScript `(s as string) || null`: the empty string turns into null. -/
def jsOrNullStr : Option String → Option String
  | some s => if s == "" then none else some s
  | none => none

/-- JavaScript `(n as number) || null`: zero turns into null. -/
def jsOrNullInt : Option Int → Option Int
  | some e => if e = 0 then none else some e
  | none => none

/-- JavaScript truthiness of a nullable string. -/
def truthyStr : Option String → Bool
  | some s => s != ""
  | none => false

/-- SQL `column = param COLLATE NOCASE`: a NULL column never matches. -/
def sqlNocaseEq (col : Option String) (param : String) : Bool :=
  match col with
  | none => false
  | some s => lowerStr s == lowerStr param

/-- The row-to-entry projection shared by `search` and `lookup`
(src/unnamed/part_001), including the falsy-value coercions of the
JavaScript row unpacking. -/
def rowToEntry (f : FactRow) : MemoryEntry :=
  { id := f.id, text := f.text, category := f.category, importance := f.importance,
    entity := jsOrNullStr f.entity, key := jsOrNullStr f.key, value := jsOrNullStr f.value,
    source := f.source, createdAt := f.createdAt, decayClass := f.decayClass,
    expiresAt := jsOrNullInt f.expiresAt, lastConfirmedAt := f.lastConfirmedAt.getD 0,
    confidence := orQ f.confidence 1 }

/-- The argument of `FactsDB.store`.  A `none` in the `...Opt` fields is the
JavaScript `undefined`; `expiresAtOpt = some none` is an explicit null. -/
structure StoreCandidate where
  text : String
  category : String
  importance : ℚ
  entity : Option String := none
  key : Option String := none
  value : Option String := none
  source : String
  decayClassOpt : Option DecayClass := none
  expiresAtOpt : Option (Option Int) := none
  confidenceOpt : Option ℚ := none
  searchTagsOpt : Option String := none
deriving DecidableEq, Repr

/-- `entry.decayClass || classifyDecay(...)` in `FactsDB.store`. -/
def StoreCandidate.decayClassOf (c : StoreCandidate) : DecayClass :=
  c.decayClassOpt.getD (classifyDecay c.entity c.key c.value c.text)

/-- `entry.expiresAt !== undefined ? entry.expiresAt : calculateExpiry(...)`. -/
def StoreCandidate.expiresAtOf (c : StoreCandidate) (now : Int) : Option Int :=
  match c.expiresAtOpt with
  | some e => e
  | none => calculateExpiry c.decayClassOf now

/-- `entry.confidence ?? 1.0`. -/
def StoreCandidate.confidenceOf (c : StoreCandidate) : ℚ :=
  c.confidenceOpt.getD 1

/-- `entry.searchTags || generateSearchTags(...)`: an explicit empty string
is falsy and falls back to the generated tags. -/
def StoreCandidate.searchTagsOf (c : StoreCandidate) : String :=
  match c.searchTagsOpt with
  | some s => if s == "" then generateSearchTags c.text c.entity c.key c.value else s
  | none => generateSearchTags c.text c.entity c.key c.value

/-- The upsert probe `SELECT id FROM facts WHERE entity = ? COLLATE NOCASE
AND key = ? COLLATE NOCASE` for a candidate. -/
def ekMatch (c : StoreCandidate) (f : FactRow) : Bool :=
  sqlNocaseEq f.entity (c.entity.getD "") && sqlNocaseEq f.key (c.key.getD "")

namespace FactsDB

/-- The UPDATE of the upsert branch of `store`: it overwrites every column
except `id`, `entity` and `key` (the existing row keeps its own casing). -/
def overwriteRow (c : StoreCandidate) (now : Int) (f : FactRow) : FactRow :=
  { f with text := c.text, value := c.value, importance := c.importance,
           category := c.category, source := c.source, createdAt := now,
           decayClass := c.decayClassOf, expiresAt := c.expiresAtOf now,
           lastConfirmedAt := some now, confidence := c.confidenceOf,
           searchTags := c.searchTagsOf }

/-- The INSERT branch of `store`. -/
def insertRow (c : StoreCandidate) (now : Int) (freshId : String) : FactRow :=
  { id := freshId, text := c.text, category := c.category, importance := c.importance,
    entity := c.entity, key := c.key, value := c.value, source := c.source,
    createdAt := now, decayClass := c.decayClassOf, expiresAt := c.expiresAtOf now,
    lastConfirmedAt := some now, confidence := c.confidenceOf,
    searchTags := c.searchTagsOf }

/-- The record value returned by `store`: the candidate spread together with
the computed fields.  The spread does not write the computed search tags
back, so the returned `searchTags` is the candidate one (empty if absent). -/
def returnedEntry (c : StoreCandidate) (now : Int) (id : String) : FactRow :=
  { id := id, text := c.text, category := c.category, importance := c.importance,
    entity := c.entity, key := c.key, value := c.value, source := c.source,
    createdAt := now, decayClass := c.decayClassOf, expiresAt := c.expiresAtOf now,
    lastConfirmedAt := some now, confidence := c.confidenceOf,
    searchTags := c.searchTagsOpt.getD "" }

/-- `FactsDB.store` (src/unnamed/part_001).  The clock and the generated
UUID are explicit parameters. -/
def store (st : List FactRow) (c : StoreCandidate) (now : Int) (freshId : String) :
    List FactRow × FactRow :=
  if truthyStr c.entity && truthyStr c.key then
    match st.find? (ekMatch c) with
    | some ex =>
        (st.map (fun f => if f.id == ex.id then overwriteRow c now f else f),
         returnedEntry c now ex.id)
    | none => (st ++ [insertRow c now freshId], returnedEntry c now freshId)
  else (st ++ [insertRow c now freshId], returnedEntry c now freshId)

/-- The WHERE clause of `refreshAccessedFacts`: only stable or active rows
that are not yet expired are touched. -/
def refreshCond (now : Int) (f : FactRow) : Bool :=
  (f.decayClass == .stable || f.decayClass == .active) &&
    (match f.expiresAt with
     | none => true
     | some e => now < e)

/-- The SET clause of `refreshAccessedFacts`: the stable and active TTLs are
the ones the code reads from `TTL_DEFAULTS`. -/
def refreshUpd (now : Int) (f : FactRow) : FactRow :=
  { f with lastConfirmedAt := some now,
           expiresAt :=
             match f.decayClass with
             | .stable => some (now + (TTL_DEFAULTS .stable).getD 0)
             | .active => some (now + (TTL_DEFAULTS .active).getD 0)
             | _ => f.expiresAt }

/-- One UPDATE of `refreshAccessedFacts` for a single target id. -/
def refreshRow (now : Int) (tid : String) (f : FactRow) : FactRow :=
  if f.id == tid && refreshCond now f then refreshUpd now f else f

/-- `FactsDB.refreshAccessedFacts`: one UPDATE per returned id, in order. -/
def refreshAccessedFacts (ids : List String) (now : Int) (st : List FactRow) : List FactRow :=
  ids.foldl (fun s tid => s.map (refreshRow now tid)) st

/-- SQL `expires_at IS NULL OR expires_at > now`. -/
def notExpiredRow (now : Int) (f : FactRow) : Bool :=
  match f.expiresAt with
  | none => true
  | some e => now < e

/-- Stable insertion for `ORDER BY confidence DESC, created_at DESC`. -/
def insertLk (x : FactRow) : List FactRow → List FactRow
  | [] => [x]
  | y :: ys =>
      if y.confidence < x.confidence ||
         (y.confidence == x.confidence && y.createdAt ≤ x.createdAt) then
        x :: y :: ys
      else y :: insertLk x ys

/-- Stable sort for `ORDER BY confidence DESC, created_at DESC`. -/
def sortLookup (l : List FactRow) : List FactRow :=
  l.foldr insertLk []

/-- `FactsDB.lookup` (src/unnamed/part_001): case-insensitive entity (and
optional key) match over non-expired rows, ordered by confidence then
creation time, score = the row confidence, followed by access refresh. -/
def lookup (st : List FactRow) (entity : String) (keyOpt : Option String) (now : Int) :
    List SearchResult × List FactRow :=
  let rows := st.filter (fun f =>
    sqlNocaseEq f.entity entity &&
      (if truthyStr keyOpt then sqlNocaseEq f.key (keyOpt.getD "") else true) &&
      notExpiredRow now f)
  let results := (sortLookup rows).map (fun f =>
    { entry := rowToEntry f, score := orQ f.confidence 1, backend := Backend.sqlite })
  (results, refreshAccessedFacts (results.map (fun r => r.entry.id)) now st)

/-- The freshness CASE expression computed inside the `search` SQL. -/
def sqlFreshness (now : Int) (f : FactRow) : ℚ :=
  match f.expiresAt with
  | none => 1
  | some e => if e ≤ now then 0 else min 1 (((e - now : Int) : ℚ) / 604800)

end FactsDB

/-- A candidate row fetched by the `search` SQL, together with its FTS rank
(the rank is produced by the external FTS engine). -/
structure RankedRow where
  fact : FactRow
  rank : ℚ
deriving DecidableEq, Repr

/-- Stable insertion for the JavaScript `sort((a, b) => b.score - a.score)`. -/
def insertScoreDesc (x : SearchResult) : List SearchResult → List SearchResult
  | [] => [x]
  | y :: ys => if y.score ≤ x.score then x :: y :: ys else y :: insertScoreDesc x ys

/-- Stable sort by score descending. -/
def sortScoreDesc (l : List SearchResult) : List SearchResult :=
  l.foldr insertScoreDesc []

namespace FactsDB

/-- The per-candidate scoring of `search`: bm25 normalisation against the
fetched candidates, the falsy-coerced freshness and confidence, and the
composite weights 0.6 / 0.25 / 0.15. -/
def scoreRow (minRank range : ℚ) (now : Int) (r : RankedRow) : SearchResult :=
  let rawBm25 := 1 - (r.rank - minRank) / range
  let bm25Score := rawBm25
  let freshness := orQ (sqlFreshness now r.fact) 1
  let confidence := orQ r.fact.confidence 1
  let composite := bm25Score * (6/10 : ℚ) + freshness * (1/4 : ℚ) + confidence * (3/20 : ℚ)
  { entry := rowToEntry r.fact, score := composite, backend := Backend.sqlite }

/-- The result-assembly stage of `FactsDB.search`, as a function of the
candidate rows the FTS query fetched (at most twice the limit, matching the
compiled query, restricted to non-expired rows unless includeExpired, in
rank order).  `range` is the JavaScript `maxRank - minRank || 1`. -/
def searchFromRows (rows : List RankedRow) (limit : Nat) (now : Int) (st : List FactRow) :
    List SearchResult × List FactRow :=
  match rows with
  | [] => ([], st)
  | r0 :: rest =>
      let minRank := (rest.map (fun r => r.rank)).foldl min r0.rank
      let maxRank := (rest.map (fun r => r.rank)).foldl max r0.rank
      let range : ℚ := if maxRank - minRank = 0 then 1 else maxRank - minRank
      let results := (r0 :: rest).map (scoreRow minRank range now)
      let top := (sortScoreDesc results).take limit
      (top, refreshAccessedFacts (top.map (fun r => r.entry.id)) now st)

/-- `FactsDB.delete`: remove the row, report whether anything was removed. -/
def delete (st : List FactRow) (id : String) : List FactRow × Bool :=
  (st.filter (fun f => f.id != id), st.any (fun f => f.id == id))

/-- `FactsDB.hasDuplicate`: exact text match. -/
def hasDuplicate (st : List FactRow) (text : String) : Bool :=
  st.any (fun f => f.text == text)

/-- `FactsDB.count`. -/
def count (st : List FactRow) : Nat :=
  st.length

/-- The predicate of `pruneExpired` and `countExpired`:
`expires_at IS NOT NULL AND expires_at < now` (strict). -/
def expiredStrict (now : Int) (f : FactRow) : Bool :=
  match f.expiresAt with
  | some e => e < now
  | none => false

/-- `FactsDB.pruneExpired`: select the doomed ids, delete the same set,
return the deleted count and ids. -/
def pruneExpired (st : List FactRow) (now : Int) : List FactRow × Nat × List String :=
  let doomed := st.filter (expiredStrict now)
  (st.filter (fun f => !expiredStrict now f), doomed.length, doomed.map (fun f => f.id))

/-- The WHERE clause of `decayConfidence`: non-null future expiry, non-null
last confirmation, positive window. -/
def decayCond (now : Int) (f : FactRow) : Bool :=
  match f.expiresAt, f.lastConfirmedAt with
  | some e, some l => now < e && 0 < e - l
  | _, _ => false

/-- The confidence assigned by `decayConfidence`. -/
def decayedConf (now e l : Int) : ℚ :=
  max (1/20 : ℚ) (1 - ((now - l : Int) : ℚ) / ((e - l : Int) : ℚ))

/-- One row of the `decayConfidence` UPDATE. -/
def decayRow (now : Int) (f : FactRow) : FactRow :=
  if decayCond now f then
    { f with confidence := decayedConf now (f.expiresAt.getD 0) (f.lastConfirmedAt.getD 0) }
  else f

/-- `FactsDB.decayConfidence`: soft update plus the number of rows the
UPDATE touched. -/
def decayConfidence (st : List FactRow) (now : Int) : List FactRow × Nat :=
  (st.map (decayRow now), (st.filter (decayCond now)).length)

/-- `FactsDB.confirmFact`: reset confidence, stamp the confirmation, and
recompute the expiry from the decay class of the addressed row. -/
def confirmFact (st : List FactRow) (id : String) (now : Int) : List FactRow × Bool :=
  match st.find? (fun f => f.id == id) with
  | none => (st, false)
  | some row =>
      (st.map (fun f =>
        if f.id == id then
          { f with confidence := 1, lastConfirmedAt := some now,
                   expiresAt := calculateExpiry row.decayClass now }
        else f), true)

/-- The selection of `backfillDecayClasses`: stable rows, plus non-permanent
rows with a null expiry. -/
def backfillCond (f : FactRow) : Bool :=
  f.decayClass == .stable || (f.expiresAt.isNone && f.decayClass != .permanent)

/-- One row of `backfillDecayClasses`: reclassify, skip when the class is
unchanged and the expiry is already set, otherwise write both. -/
def backfillRow (now : Int) (f : FactRow) : FactRow :=
  if backfillCond f then
    let dc := classifyDecay f.entity f.key f.value f.text
    if dc == f.decayClass && !f.expiresAt.isNone then f
    else { f with decayClass := dc, expiresAt := calculateExpiry dc now }
  else f

/-- `FactsDB.backfillDecayClasses` (the per-class counts it also returns are
not modelled; no claim mentions them). -/
def backfillDecayClasses (st : List FactRow) (now : Int) : List FactRow :=
  st.map (backfillRow now)

end FactsDB

/-- The first pass of `mergeResults` (src/unnamed/part_001): keep the first
occurrence of each id from the lexical list, tracking seen ids. -/
def dedupById : List SearchResult → List String → List SearchResult
  | [], _ => []
  | r :: rs, seen =>
      if seen.contains r.entry.id then dedupById rs seen
      else r :: dedupById rs (r.entry.id :: seen)

/-- The duplicate test of the second pass of `mergeResults`: same id, or
same text after case folding, against everything merged so far. -/
def isDupeOf (merged : List SearchResult) (r : SearchResult) : Bool :=
  merged.any (fun m => m.entry.id == r.entry.id ||
    lowerStr m.entry.text == lowerStr r.entry.text)

/-- The second pass of `mergeResults`: append each vector entry that is not
a duplicate of anything merged so far. -/
def addLance (merged : List SearchResult) : List SearchResult → List SearchResult
  | [] => merged
  | r :: rs => addLance (if isDupeOf merged r then merged else merged ++ [r]) rs

/-- `mergeResults` (src/unnamed/part_001): lexical pass, vector pass,
score-descending sort, truncation. -/
def mergeResults (sqliteResults lanceResults : List SearchResult) (limit : Nat) :
    List SearchResult :=
  (sortScoreDesc (addLance (dedupById sqliteResults []) lanceResults)).take limit

/-- Step 1 of the spec description of the fuser: walk the lexical list and
keep each unique id, in order. -/
def keepUniqueIds (x : List SearchResult) : List SearchResult :=
  x.foldl (fun acc r => if acc.any (fun m => m.entry.id == r.entry.id) then acc
                        else acc ++ [r]) []

/-- Step 2 of the spec description of the fuser: walk the vector list and
drop entries whose id or case-folded text already appears among the kept
entries (the lexical keeps plus the vector survivors so far). -/
def specSurvivors (kept : List SearchResult) (y : List SearchResult) : List SearchResult :=
  y.foldl (fun acc r => if isDupeOf (kept ++ acc) r then acc else acc ++ [r]) []

/-- The fuser as described by the spec, steps 1 to 4. -/
def mergeResultsSpec (x y : List SearchResult) (limit : Nat) : List SearchResult :=
  let kept := keepUniqueIds x
  (sortScoreDesc (kept ++ specSurvivors kept y)).take limit

/-- A row of the LanceDB `memories` table (src/unnamed/part_002). -/
structure VRec where
  id : String
  text : String
  vector : List ℚ
  importance : ℚ
  category : String
  createdAt : Int
deriving DecidableEq, Repr

/-- Hexadecimal digit, as in the character class `[0-9a-f]` under the `i`
flag. -/
def isHexChar (c : Char) : Bool :=
  ('0' ≤ c && c ≤ '9') || ('a' ≤ c && c ≤ 'f') || ('A' ≤ c && c ≤ 'F')

/-- Consume exactly `n` hexadecimal characters. -/
def takeHex : Nat → List Char → Option (List Char)
  | 0, cs => some cs
  | _ + 1, [] => none
  | n + 1, c :: cs => if isHexChar c then takeHex n cs else none

/-- Consume a literal dash. -/
def afterDash : List Char → Option (List Char)
  | '-' :: cs => some cs
  | _ => none

/-- The UUID shape test of VectorDB (src/unnamed/part_002):
`^[0-9a-f]8-[0-9a-f]4-[0-9a-f]4-[0-9a-f]4-[0-9a-f]12$` case-insensitively,
with the digit counts written in braces in the source regex. -/
def isUuidShaped (s : String) : Bool :=
  ((((((((takeHex 8 s.toList).bind afterDash).bind
    (takeHex 4)).bind afterDash).bind
    (takeHex 4)).bind afterDash).bind
    (takeHex 4)).bind afterDash).bind
    (takeHex 12) == some []

namespace VectorDB

/-- `VectorDB.delete` (src/unnamed/part_002): a non-UUID id raises an error;
otherwise the rows with that id are removed and true is returned. -/
def delete (st : List VRec) (id : String) : Except String (List VRec × Bool) :=
  if !isUuidShaped id then Except.error ("Invalid ID: " ++ id)
  else Except.ok (st.filter (fun r => r.id != id), true)

/-- `VectorDB.deleteMany` (src/unnamed/part_002): skip non-UUID ids, delete
the rest one by one inside a per-id try/catch, and count the ids whose
delete call succeeded.  In the model the backend delete never fails, so
every UUID-shaped id counts. -/
def deleteMany (st : List VRec) (ids : List String) : List VRec × Nat :=
  if ids.isEmpty then (st, 0)
  else ids.foldl
    (fun acc id =>
      if isUuidShaped id then (acc.1.filter (fun r => r.id != id), acc.2 + 1)
      else acc)
    (st, 0)

end VectorDB

/-- The spec invariant: a record is permanent exactly when it never
expires. -/
def PermanentIffNever (st : List FactRow) : Prop :=
  ∀ f ∈ st, f.decayClass = DecayClass.permanent ↔ f.expiresAt = none

/-- A store candidate matching the spec example: entity fred, key email,
value a. -/
def cFredA : StoreCandidate :=
  { text := "fred email a", category := "fact", importance := 1,
    entity := some "fred", key := some "email", value := some "a",
    source := "conversation" }

/-- The second candidate of the spec example: entity Fred, key EMAIL,
value b, differing only in case and value. -/
def cFredB : StoreCandidate :=
  { text := "fred email b", category := "fact", importance := 1,
    entity := some "Fred", key := some "EMAIL", value := some "b",
    source := "conversation" }

/-- The store after the first example store. -/
def stFredOne : List FactRow :=
  (FactsDB.store [] cFredA 1000 "id1").1

/-- The row the first example store inserts. -/
def fredRowA : FactRow :=
  FactsDB.insertRow cFredA 1000 "id1"

/-- A permanent row used as a concrete record; returned by lookup but, with
its decay class outside the stable and active set, never touched by the
access refresh. -/
def permRow : FactRow :=
  { id := "p1", text := "perm", category := "fact", importance := 1,
    entity := some "Fred", key := some "email", value := some "v",
    source := "conversation", createdAt := 50, decayClass := .permanent,
    expiresAt := none, lastConfirmedAt := some 100, confidence := 1,
    searchTags := "" }

/-- A stable, unexpired row, eligible for the access refresh. -/
def stableRow : FactRow :=
  { permRow with id := "s1", decayClass := .stable, expiresAt := some 300 }

/-- A session row whose expiry sits exactly at the probing time. -/
def boundaryRow : FactRow :=
  { permRow with id := "b1", decayClass := .session, expiresAt := some 100 }

/-- A session row that is already expired but still has a positive decay
window. -/
def staleRow : FactRow :=
  { permRow with id := "c1", decayClass := .session, expiresAt := some 99,
                 lastConfirmedAt := some 90 }

/-- A store candidate carrying an explicit null expiry together with a
non-permanent decay class. -/
def cNullExpiry : StoreCandidate :=
  { text := "x", category := "other", importance := 1, source := "conversation",
    decayClassOpt := some .stable, expiresAtOpt := some none }

/-- A fetched search candidate whose row is already expired at time 100. -/
def expiredRankedRow : RankedRow :=
  { fact := { permRow with id := "e1", decayClass := .session, expiresAt := some 50 },
    rank := -1 }

/-- A fetched search candidate with rank -1 and no expiry. -/
def fracRowA : RankedRow :=
  { fact := { permRow with id := "t1", decayClass := .stable, expiresAt := none },
    rank := -1 }

/-- A fetched search candidate with rank -1/2 and no expiry; the rank spread
against `fracRowA` is 1/2, strictly between 0 and 1. -/
def fracRowB : RankedRow :=
  { fact := { permRow with id := "t2", decayClass := .stable, expiresAt := none },
    rank := -(1/2) }

/-- A lexical merge entry with id m1 and score 1. -/
def srLexA : SearchResult :=
  { entry := { id := "m1", text := "Same", category := "fact", importance := 1,
               entity := none, key := none, value := none, source := "conversation",
               createdAt := 10, decayClass := .stable, expiresAt := none,
               lastConfirmedAt := 10, confidence := 1 },
    score := 1, backend := .sqlite }

/-- A vector merge entry sharing the id of `srLexA` but with the strictly
higher score 2. -/
def srVecA : SearchResult :=
  { entry := { srLexA.entry with text := "other words" },
    score := 2, backend := .lancedb }

/-- A vector record with a well-shaped UUID id. -/
def vr1 : VRec :=
  { id := "0123abcd-0123-abcd-0123-0123456789ab", text := "t", vector := [1],
    importance := 1, category := "fact", createdAt := 0 }


/-- The minimum fetched rank, as computed inside `search`. -/
def minRankOf (r0 : RankedRow) (rest : List RankedRow) : ℚ :=
  (rest.map (fun r => r.rank)).foldl min r0.rank

/-- The maximum fetched rank, as computed inside `search`. -/
def maxRankOf (r0 : RankedRow) (rest : List RankedRow) : ℚ :=
  (rest.map (fun r => r.rank)).foldl max r0.rank

/-- The rank normalisation denominator of `search`: the JavaScript
`maxRank - minRank || 1`, which keeps any nonzero spread, fractional
spreads included. -/
def rangeOf (r0 : RankedRow) (rest : List RankedRow) : ℚ :=
  if maxRankOf r0 rest - minRankOf r0 rest = 0 then 1
  else maxRankOf r0 rest - minRankOf r0 rest

/-! Helper lemmas. -/

theorem refreshUpd_id (now : Int) (f : FactRow) :
    (FactsDB.refreshUpd now f).id = f.id := by
  simp [FactsDB.refreshUpd]

theorem refreshUpd_decayClass (now : Int) (f : FactRow) :
    (FactsDB.refreshUpd now f).decayClass = f.decayClass := by
  simp [FactsDB.refreshUpd]

theorem refreshCond_refreshUpd (now : Int) (f : FactRow)
    (h : FactsDB.refreshCond now f = true) :
    FactsDB.refreshCond now (FactsDB.refreshUpd now f) = true := by
  cases hc : f.decayClass <;>
    simp [FactsDB.refreshCond, FactsDB.refreshUpd, hc, TTL_DEFAULTS] at h ⊢

theorem refreshUpd_idem (now : Int) (f : FactRow) :
    FactsDB.refreshUpd now (FactsDB.refreshUpd now f) = FactsDB.refreshUpd now f := by
  cases hc : f.decayClass <;> simp [FactsDB.refreshUpd, hc]

theorem refreshAccessedFacts_map_foldl (ids : List String) (now : Int) (st : List FactRow) :
    FactsDB.refreshAccessedFacts ids now st =
      st.map (fun f => ids.foldl (fun a tid => FactsDB.refreshRow now tid a) f) := by
  induction ids generalizing st with
  | nil => simp [FactsDB.refreshAccessedFacts]
  | cons t ts ih =>
      have h1 : FactsDB.refreshAccessedFacts (t :: ts) now st =
          FactsDB.refreshAccessedFacts ts now (st.map (FactsDB.refreshRow now t)) := by
        simp [FactsDB.refreshAccessedFacts]
      rw [h1, ih, List.map_map]
      simp [Function.comp, List.foldl_cons]

theorem foldl_refreshRow (now : Int) (ids : List String) (f : FactRow) :
    ids.foldl (fun a tid => FactsDB.refreshRow now tid a) f =
      if (ids.contains f.id && FactsDB.refreshCond now f) = true
      then FactsDB.refreshUpd now f else f := by
  induction ids generalizing f with
  | nil => simp
  | cons t ts ih =>
      rw [List.foldl_cons]
      cases hid : (f.id == t) with
      | false =>
          have hrow : FactsDB.refreshRow now t f = f := by
            simp [FactsDB.refreshRow, hid]
          rw [hrow, ih]
          have hcont : (t :: ts).contains f.id = ts.contains f.id := by
            rw [List.contains_cons, hid, Bool.false_or]
          rw [hcont]
      | true =>
          cases hcond : FactsDB.refreshCond now f with
          | false =>
              have hrow : FactsDB.refreshRow now t f = f := by
                simp [FactsDB.refreshRow, hcond]
              rw [hrow, ih]
              simp [hcond]
          | true =>
              have hrow : FactsDB.refreshRow now t f = FactsDB.refreshUpd now f := by
                simp [FactsDB.refreshRow, hid, hcond]
              rw [hrow, ih]
              have hres : (if (ts.contains (FactsDB.refreshUpd now f).id &&
                  FactsDB.refreshCond now (FactsDB.refreshUpd now f)) = true
                  then FactsDB.refreshUpd now (FactsDB.refreshUpd now f)
                  else FactsDB.refreshUpd now f) = FactsDB.refreshUpd now f := by
                split
                · exact refreshUpd_idem now f
                · rfl
              rw [hres]
              have hcont : (t :: ts).contains f.id = true := by
                rw [List.contains_cons, hid, Bool.true_or]
              rw [hcont]
              simp [hcond]

theorem refreshAccessedFacts_eq_map (ids : List String) (now : Int) (st : List FactRow) :
    FactsDB.refreshAccessedFacts ids now st =
      st.map (fun f => if (ids.contains f.id && FactsDB.refreshCond now f) = true
                       then FactsDB.refreshUpd now f else f) := by
  rw [refreshAccessedFacts_map_foldl]
  exact List.map_congr_left (fun f _ => foldl_refreshRow now ids f)

theorem mem_insertScoreDesc {x a : SearchResult} {l : List SearchResult} :
    a ∈ insertScoreDesc x l ↔ a = x ∨ a ∈ l := by
  induction l with
  | nil => simp [insertScoreDesc]
  | cons y ys ih =>
      simp only [insertScoreDesc]
      split
      · simp [List.mem_cons]
      · simp only [List.mem_cons, ih]
        tauto

theorem mem_sortScoreDesc {a : SearchResult} {l : List SearchResult} :
    a ∈ sortScoreDesc l ↔ a ∈ l := by
  induction l with
  | nil => simp [sortScoreDesc]
  | cons x xs ih =>
      show a ∈ insertScoreDesc x (sortScoreDesc xs) ↔ _
      rw [mem_insertScoreDesc, ih]
      simp [List.mem_cons]

theorem sorted_insertScoreDesc {x : SearchResult} {l : List SearchResult}
    (h : l.Pairwise (fun p q => q.score ≤ p.score)) :
    (insertScoreDesc x l).Pairwise (fun p q => q.score ≤ p.score) := by
  induction l with
  | nil => simp [insertScoreDesc]
  | cons y ys ih =>
      rw [List.pairwise_cons] at h
      simp only [insertScoreDesc]
      split
      · rw [List.pairwise_cons]
        refine ⟨?_, List.pairwise_cons.mpr h⟩
        intro b hb
        rcases List.mem_cons.mp hb with hb | hb
        · subst hb; assumption
        · exact le_trans (h.1 b hb) (by assumption)
      · rw [List.pairwise_cons]
        refine ⟨?_, ih h.2⟩
        intro b hb
        rcases mem_insertScoreDesc.mp hb with hb | hb
        · subst hb
          exact le_of_lt (lt_of_not_le (by assumption))
        · exact h.1 b hb

theorem sorted_sortScoreDesc (l : List SearchResult) :
    (sortScoreDesc l).Pairwise (fun p q => q.score ≤ p.score) := by
  induction l with
  | nil => simp [sortScoreDesc]
  | cons x xs ih => exact sorted_insertScoreDesc ih

theorem foldl_min_eq_of_all_eq (x : ℚ) (l : List ℚ) (h : ∀ a ∈ l, a = x) :
    l.foldl min x = x := by
  induction l with
  | nil => rfl
  | cons a as ih =>
      rw [List.foldl_cons, h a (by simp), min_self]
      exact ih (fun b hb => h b (by simp [hb]))

theorem foldl_max_eq_of_all_eq (x : ℚ) (l : List ℚ) (h : ∀ a ∈ l, a = x) :
    l.foldl max x = x := by
  induction l with
  | nil => rfl
  | cons a as ih =>
      rw [List.foldl_cons, h a (by simp), max_self]
      exact ih (fun b hb => h b (by simp [hb]))

/-- C2 (amended): for candidates fetched by `search`, every result is a
scored candidate with score `0.60 * (1 - (rank - minRank) / range) + 0.25 *
freshness + 0.15 * confidence`, where `range` is `maxRank - minRank` when
that spread is nonzero and 1 otherwise (so the bm25 part is 1.0 when all
candidates tie), and where the freshness and confidence factors go through
the JavaScript falsy coercion, so an expired candidate (reachable only with
includeExpired) contributes freshness 1.0 rather than 0.0; the results are
sorted non-increasing by score and at most limit are returned. -/
theorem C2_search_scoring (r0 : RankedRow) (rest : List RankedRow) (limit : Nat)
    (now : Int) (st : List FactRow) :
    ((FactsDB.searchFromRows (r0 :: rest) limit now st).1).length ≤ limit ∧
    ((FactsDB.searchFromRows (r0 :: rest) limit now st).1).Pairwise
      (fun p q => q.score ≤ p.score) ∧
    (∀ r ∈ (FactsDB.searchFromRows (r0 :: rest) limit now st).1,
      ∃ q ∈ r0 :: rest,
        r.entry = rowToEntry q.fact ∧
        r.score =
          (1 - (q.rank - minRankOf r0 rest) / rangeOf r0 rest) * (6/10 : ℚ) +
            orQ (FactsDB.sqlFreshness now q.fact) 1 * (1/4 : ℚ) +
            orQ q.fact.confidence 1 * (3/20 : ℚ)) ∧
    ((∀ q ∈ r0 :: rest, q.rank = r0.rank) →
      minRankOf r0 rest = r0.rank ∧ rangeOf r0 rest = 1) ∧
    (∀ q : RankedRow, (∃ e, q.fact.expiresAt = some e ∧ e ≤ now) →
      orQ (FactsDB.sqlFreshness now q.fact) 1 = 1) := by
  have hout : (FactsDB.searchFromRows (r0 :: rest) limit now st).1 =
      (sortScoreDesc ((r0 :: rest).map
        (FactsDB.scoreRow (minRankOf r0 rest) (rangeOf r0 rest) now))).take limit := rfl
  refine ⟨?_, ?_, ?_, ?_, ?_⟩
  · rw [hout]
    exact List.length_take_le _ _
  · rw [hout]
    exact List.Pairwise.sublist (List.take_sublist _ _) (sorted_sortScoreDesc _)
  · intro r hr
    rw [hout] at hr
    have hr2 := mem_sortScoreDesc.mp (List.mem_of_mem_take hr)
    rcases List.mem_map.mp hr2 with ⟨q, hq, hscored⟩
    refine ⟨q, hq, ?_, ?_⟩
    · rw [← hscored]; rfl
    · rw [← hscored]
      simp [FactsDB.scoreRow]
  · intro htie
    have hmin : minRankOf r0 rest = r0.rank := by
      apply foldl_min_eq_of_all_eq
      intro a ha
      rcases List.mem_map.mp ha with ⟨q, hq, rfl⟩
      exact htie q (by simp [hq])
    have hmax : maxRankOf r0 rest = r0.rank := by
      apply foldl_max_eq_of_all_eq
      intro a ha
      rcases List.mem_map.mp ha with ⟨q, hq, rfl⟩
      exact htie q (by simp [hq])
    refine ⟨hmin, ?_⟩
    simp [rangeOf, hmin, hmax]
  · rintro q ⟨e, he, hle⟩
    simp [FactsDB.sqlFreshness, he, hle, orQ]

/-- C2 counterexample.  First scenario: a single expired candidate (fetched
with includeExpired) gets composite 1, not the 0.60 + 0.15·confidence = 3/4
the claim computes with freshness 0; the zero freshness is falsy and is
replaced by 1.0.  Second scenario: two candidates whose rank spread is 1/2
divide by that spread, not by max(1, spread); the code yields [1, 2/5]
while the claim formula gives 7/10 for the second candidate. -/
theorem C2_counterexample :
    (((FactsDB.searchFromRows [expiredRankedRow] 5 100 []).1.map (fun r => r.score)) = [1] ∧
      expiredRankedRow.fact.expiresAt = some 50 ∧ ((50 : Int) ≤ 100) ∧
      expiredRankedRow.fact.confidence = 1 ∧
      (6/10 : ℚ) * 1 + (1/4 : ℚ) * 0 + (3/20 : ℚ) * 1 = 3/4 ∧ ((1 : ℚ) ≠ 3/4)) ∧
    (((FactsDB.searchFromRows [fracRowA, fracRowB] 5 100 []).1.map (fun r => r.score)) =
        [1, 2/5] ∧
      fracRowA.rank = -1 ∧ fracRowB.rank = -(1/2) ∧
      (1 - ((-(1/2) : ℚ) - (-1)) / max 1 ((-(1/2) : ℚ) - (-1))) * (6/10 : ℚ) +
        1 * (1/4 : ℚ) + 1 * (3/20 : ℚ) = 7/10 ∧ ((2/5 : ℚ) ≠ 7/10)) := by
  refine ⟨⟨?_, rfl, by norm_num, rfl, by norm_num, by norm_num⟩,
          ⟨?_, rfl, rfl, by norm_num, by norm_num⟩⟩
  · simp [FactsDB.searchFromRows, FactsDB.scoreRow, FactsDB.sqlFreshness, sortScoreDesc,
      insertScoreDesc, orQ, expiredRankedRow, permRow]
    norm_num
  · simp [FactsDB.searchFromRows, FactsDB.scoreRow, FactsDB.sqlFreshness, sortScoreDesc,
      insertScoreDesc, orQ, fracRowA, fracRowB, permRow]
    norm_num

theorem C2_search_scoring_witness :
    orQ (FactsDB.sqlFreshness 100 expiredRankedRow.fact) 1 = 1 ∧
    minRankOf expiredRankedRow [] = expiredRankedRow.rank ∧
    rangeOf expiredRankedRow [] = 1 :=
  ⟨(C2_search_scoring expiredRankedRow [] 5 100 []).2.2.2.2 expiredRankedRow
     ⟨50, rfl, by norm_num⟩,
   (C2_search_scoring expiredRankedRow [] 5 100 []).2.2.2.1
     (fun q hq => by rcases List.mem_singleton.mp hq with rfl; rfl)⟩

/-- C1: when the candidate has a non-empty entity and key and a row with the
same case-insensitive pair exists, `store` overwrites, on that row, the text,
value, importance, category, source, createdAt, decayClass, expiresAt,
lastConfirmedAt, confidence and searchTags in place (keeping id, entity and
key), returns the existing id, and leaves the record count unchanged;
otherwise it appends a new row carrying the freshly generated id.  In
particular storing (fred, email, a) then (Fred, EMAIL, b) leaves count 1
and lookup("FRED", "email") returns value b first. -/
theorem C1_store_upsert :
    (∀ (st : List FactRow) (c : StoreCandidate) (now : Int) (freshId : String)
        (ex : FactRow),
      truthyStr c.entity = true → truthyStr c.key = true →
      st.find? (ekMatch c) = some ex →
      (FactsDB.store st c now freshId).2.id = ex.id ∧
      ((FactsDB.store st c now freshId).1).length = st.length ∧
      (FactsDB.store st c now freshId).1 =
        st.map (fun f =>
          if f.id == ex.id then
            { f with text := c.text, value := c.value, importance := c.importance,
                     category := c.category, source := c.source, createdAt := now,
                     decayClass := c.decayClassOf, expiresAt := c.expiresAtOf now,
                     lastConfirmedAt := some now, confidence := c.confidenceOf,
                     searchTags := c.searchTagsOf }
          else f)) ∧
    (∀ (st : List FactRow) (c : StoreCandidate) (now : Int) (freshId : String),
      (truthyStr c.entity = false ∨ truthyStr c.key = false ∨
        st.find? (ekMatch c) = none) →
      (FactsDB.store st c now freshId).1 = st ++ [FactsDB.insertRow c now freshId] ∧
      (FactsDB.insertRow c now freshId).id = freshId ∧
      (FactsDB.store st c now freshId).2.id = freshId) ∧
    ((FactsDB.store stFredOne cFredB 1001 "id2").2.id = "id1" ∧
     FactsDB.count ((FactsDB.store stFredOne cFredB 1001 "id2").1) = 1 ∧
     ((FactsDB.lookup ((FactsDB.store stFredOne cFredB 1001 "id2").1)
        "FRED" (some "email") 1002).1.map (fun r => r.entry.value)) = [some "b"]) := by
  refine ⟨?_, ?_, by decide⟩
  · intro st c now freshId ex h1 h2 hfind
    have hcond : (truthyStr c.entity && truthyStr c.key) = true := by
      rw [h1, h2]; rfl
    refine ⟨?_, ?_, ?_⟩ <;>
      simp [FactsDB.store, hcond, hfind, FactsDB.returnedEntry, FactsDB.overwriteRow]
  · intro st c now freshId h
    rcases h with h | h | h
    · have hcond : (truthyStr c.entity && truthyStr c.key) = false := by
        rw [h]; rfl
      refine ⟨?_, rfl, ?_⟩ <;> simp [FactsDB.store, hcond, FactsDB.returnedEntry]
    · have hcond : (truthyStr c.entity && truthyStr c.key) = false := by
        rw [h, Bool.and_false]
      refine ⟨?_, rfl, ?_⟩ <;> simp [FactsDB.store, hcond, FactsDB.returnedEntry]
    · by_cases hcond : (truthyStr c.entity && truthyStr c.key) = true
      · refine ⟨?_, rfl, ?_⟩ <;> simp [FactsDB.store, hcond, h, FactsDB.returnedEntry]
      · refine ⟨?_, rfl, ?_⟩ <;>
          simp [FactsDB.store, Bool.of_not_eq_true hcond, FactsDB.returnedEntry]

theorem C1_store_upsert_witness :
    (FactsDB.store stFredOne cFredB 1001 "id2").2.id = fredRowA.id ∧
    ((FactsDB.store stFredOne cFredB 1001 "id2").1).length = stFredOne.length ∧
    (FactsDB.store stFredOne cFredB 1001 "id2").1 =
      stFredOne.map (fun f =>
        if f.id == fredRowA.id then
          { f with text := cFredB.text, value := cFredB.value,
                   importance := cFredB.importance, category := cFredB.category,
                   source := cFredB.source, createdAt := 1001,
                   decayClass := cFredB.decayClassOf,
                   expiresAt := cFredB.expiresAtOf 1001,
                   lastConfirmedAt := some 1001, confidence := cFredB.confidenceOf,
                   searchTags := cFredB.searchTagsOf }
        else f) :=
  C1_store_upsert.1 stFredOne cFredB 1001 "id2" fredRowA (by decide) (by decide) (by decide)

theorem getElem?_refreshAccessedFacts (ids : List String) (now : Int)
    (st : List FactRow) (i : Nat) (f : FactRow) (hf : st[i]? = some f) :
    (FactsDB.refreshAccessedFacts ids now st)[i]? =
      some (if (ids.contains f.id && FactsDB.refreshCond now f) = true
            then FactsDB.refreshUpd now f else f) := by
  rw [refreshAccessedFacts_eq_map, List.getElem?_map, hf]
  rfl

/-- C4 counterexample: a permanent record returned by lookup keeps its old
lastConfirmedAt.  The refresh UPDATE restricts its WHERE clause to decay
classes stable and active, so no other returned record gets
lastConfirmedAt = now, contrary to the claim. -/
theorem C4_counterexample :
    ((FactsDB.lookup [permRow] "fred" none 200).1.map (fun r => r.entry.id)) = ["p1"] ∧
    (FactsDB.lookup [permRow] "fred" none 200).2 = [permRow] ∧
    permRow.decayClass = .permanent ∧
    permRow.lastConfirmedAt = some 100 ∧ ((100 : Int) ≠ 200) := by
  refine ⟨by decide, by decide, rfl, rfl, by decide⟩

/-- C4 (amended): the access refresh that follows result assembly in search
and lookup updates exactly the returned records whose decay class is stable
or active and whose expiry is null or still in the future: those get
lastConfirmedAt = now and expiresAt = now + TTL of their class; every other
record, the returned ones included, is left completely unchanged. -/
theorem C4_access_refresh (ids : List String) (now : Int) (st : List FactRow)
    (i : Nat) (f : FactRow) (hf : st[i]? = some f) :
    ((ids.contains f.id && FactsDB.refreshCond now f) = true →
      (FactsDB.refreshAccessedFacts ids now st)[i]? =
        some { f with lastConfirmedAt := some now,
                      expiresAt :=
                        match f.decayClass with
                        | .stable => some (now + (TTL_DEFAULTS .stable).getD 0)
                        | .active => some (now + (TTL_DEFAULTS .active).getD 0)
                        | _ => f.expiresAt }) ∧
    ((ids.contains f.id && FactsDB.refreshCond now f) = false →
      (FactsDB.refreshAccessedFacts ids now st)[i]? = some f) ∧
    (∀ e k, (FactsDB.lookup st e k now).2 =
      FactsDB.refreshAccessedFacts
        ((FactsDB.lookup st e k now).1.map (fun r => r.entry.id)) now st) ∧
    (∀ rows limit, (FactsDB.searchFromRows rows limit now st).2 =
      FactsDB.refreshAccessedFacts
        ((FactsDB.searchFromRows rows limit now st).1.map (fun r => r.entry.id)) now st) := by
  refine ⟨?_, ?_, fun e k => rfl, fun rows limit => by cases rows <;> rfl⟩
  · intro hcond
    rw [getElem?_refreshAccessedFacts ids now st i f hf, if_pos hcond]
    rfl
  · intro hcond
    have hne : ¬ ((ids.contains f.id && FactsDB.refreshCond now f) = true) := by
      rw [hcond]; decide
    rw [getElem?_refreshAccessedFacts ids now st i f hf, if_neg hne]

theorem C4_access_refresh_witness :
    (FactsDB.refreshAccessedFacts ["s1"] 200 [stableRow])[0]? =
      some { stableRow with lastConfirmedAt := some 200,
                            expiresAt :=
                              match stableRow.decayClass with
                              | .stable => some (200 + (TTL_DEFAULTS .stable).getD 0)
                              | .active => some (200 + (TTL_DEFAULTS .active).getD 0)
                              | _ => stableRow.expiresAt } :=
  (C4_access_refresh ["s1"] 200 [stableRow] 0 stableRow (by decide)).1 (by decide)

/-- C9: reads do not revive expired records and do not touch records whose
decay class is outside the stable and active set.  The refresh performed
after search (also with includeExpired, which can return expired rows) and
lookup leaves every such record bit-for-bit unchanged. -/
theorem C9_reads_leave_expired_unchanged (ids : List String) (now : Int)
    (st : List FactRow) (i : Nat) (f : FactRow) (hf : st[i]? = some f)
    (h : (f.decayClass ≠ .stable ∧ f.decayClass ≠ .active) ∨
         (∃ e, f.expiresAt = some e ∧ e ≤ now)) :
    (FactsDB.refreshAccessedFacts ids now st)[i]? = some f := by
  have hcond : FactsDB.refreshCond now f = false := by
    rcases h with ⟨h1, h2⟩ | ⟨e, he, hle⟩
    · cases hc : f.decayClass <;> simp [FactsDB.refreshCond, hc] <;> tauto
    · simp [FactsDB.refreshCond, he]
      intro h3
      omega
  have hne : ¬ ((ids.contains f.id && FactsDB.refreshCond now f) = true) := by
    rw [hcond]; simp
  rw [getElem?_refreshAccessedFacts ids now st i f hf, if_neg hne]

theorem C9_reads_leave_expired_unchanged_witness :
    (FactsDB.refreshAccessedFacts ["p1", "b1"] 200 [permRow, boundaryRow])[1]? =
      some boundaryRow :=
  C9_reads_leave_expired_unchanged ["p1", "b1"] 200 [permRow, boundaryRow] 1
    boundaryRow (by decide) (Or.inl (by decide))

theorem length_filter_split {α : Type} (p : α → Bool) (l : List α) :
    (l.filter (fun a => !p a)).length + (l.filter p).length = l.length := by
  induction l with
  | nil => rfl
  | cons a as ih =>
      by_cases h : p a <;> simp [List.filter_cons, h] <;> omega

/-- C5 counterexample: a row whose expiresAt equals the current second is
not deleted by pruneExpired; the SQL predicate is the strict
`expires_at < now`, while the claim requires deletion at `expiresAt ≤ now`. -/
theorem C5_counterexample :
    boundaryRow.expiresAt = some 100 ∧ ((100 : Int) ≤ 100) ∧
    (FactsDB.pruneExpired [boundaryRow] 100).1 = [boundaryRow] ∧
    (FactsDB.pruneExpired [boundaryRow] 100).2.1 = 0 ∧
    (FactsDB.pruneExpired [boundaryRow] 100).2.2 = [] := by
  refine ⟨rfl, by decide, by decide, by decide, by decide⟩

/-- C5 (amended): pruneExpired deletes exactly the rows with a non-null
expiresAt strictly below now (a row expiring at the current second survives
until the next call), returns the deleted count and ids, conserves the
remaining rows, and never deletes a row with null expiresAt (permanent
records). -/
theorem C5_prune_expired (st : List FactRow) (now : Int) :
    (∀ f ∈ st, f ∈ (FactsDB.pruneExpired st now).1 ↔
      ¬ (∃ e, f.expiresAt = some e ∧ e < now)) ∧
    (FactsDB.pruneExpired st now).2.2 =
      (st.filter (FactsDB.expiredStrict now)).map (fun f => f.id) ∧
    (FactsDB.pruneExpired st now).2.1 = ((FactsDB.pruneExpired st now).2.2).length ∧
    ((FactsDB.pruneExpired st now).1).length + (FactsDB.pruneExpired st now).2.1 =
      st.length ∧
    (∀ f ∈ st, f.expiresAt = none → f ∈ (FactsDB.pruneExpired st now).1) := by
  refine ⟨?_, rfl, by simp [FactsDB.pruneExpired], ?_, ?_⟩
  · intro f hf
    simp only [FactsDB.pruneExpired]
    rw [List.mem_filter]
    cases hexp : f.expiresAt with
    | none => simp [FactsDB.expiredStrict, hexp, hf]
    | some e =>
        simp [FactsDB.expiredStrict, hexp, hf]
  · simp only [FactsDB.pruneExpired]
    exact length_filter_split _ st
  · intro f hf hnone
    simp only [FactsDB.pruneExpired]
    rw [List.mem_filter]
    exact ⟨hf, by simp [FactsDB.expiredStrict, hnone]⟩

theorem C5_prune_expired_witness :
    (boundaryRow ∈ (FactsDB.pruneExpired [boundaryRow, permRow] 100).1) ∧
    (permRow ∈ (FactsDB.pruneExpired [boundaryRow, permRow] 100).1) :=
  ⟨((C5_prune_expired [boundaryRow, permRow] 100).1 boundaryRow (by decide)).mpr
     (by rintro ⟨e, he, hlt⟩
         have he' : (100 : Int) = e := by simpa [boundaryRow, permRow] using he
         omega),
   (C5_prune_expired [boundaryRow, permRow] 100).2.2.2.2 permRow (by decide) rfl⟩

theorem decayedConf_lower_bound (now e l : Int) :
    (1/20 : ℚ) ≤ FactsDB.decayedConf now e l :=
  le_max_left _ _

theorem decayedConf_antitone (now1 now2 e l : Int) (h12 : now1 ≤ now2)
    (hwin : 0 < e - l) :
    FactsDB.decayedConf now2 e l ≤ FactsDB.decayedConf now1 e l := by
  unfold FactsDB.decayedConf
  apply max_le_max le_rfl
  apply sub_le_sub_left
  have hc : (0 : ℚ) < ((e - l : Int) : ℚ) := by exact_mod_cast hwin
  have hab : ((now1 - l : Int) : ℚ) ≤ ((now2 - l : Int) : ℚ) := by
    exact_mod_cast (by omega : now1 - l ≤ now2 - l)
  gcongr

/-- C6 counterexample: a non-permanent row that is already expired but has a
positive window is not touched by decayConfidence (the SQL adds
`expires_at > now` to the WHERE clause), while the claim requires its
confidence to drop to max(0.05, 1 - 10/9) = 0.05. -/
theorem C6_counterexample :
    staleRow.decayClass ≠ .permanent ∧
    staleRow.expiresAt = some 99 ∧ staleRow.lastConfirmedAt = some 90 ∧
    ((0 : Int) < 99 - 90) ∧ staleRow.confidence = 1 ∧
    (FactsDB.decayConfidence [staleRow] 100).1 = [staleRow] ∧
    (FactsDB.decayConfidence [staleRow] 100).2 = 0 ∧
    FactsDB.decayedConf 100 99 90 = 1/20 ∧ ((1 : ℚ) ≠ 1/20) := by
  refine ⟨by decide, rfl, rfl, by decide, rfl, by decide, by decide, ?_, by norm_num⟩
  unfold FactsDB.decayedConf
  norm_num

/-- C6 (amended): decayConfidence touches exactly the rows with a non-null
expiry strictly in the future, a non-null last confirmation and a positive
window, assigning confidence = max(0.05, 1 - (now - lastConfirmedAt) /
(expiresAt - lastConfirmedAt)); it deletes nothing, never assigns below
0.05, assigns values non-increasing in now (so repeated sweeps without an
intervening write never raise confidence), and returns the touched count. -/
theorem C6_decay_confidence (st : List FactRow) (now : Int) :
    ((FactsDB.decayConfidence st now).1).length = st.length ∧
    (∀ f, FactsDB.decayCond now f = true ↔
      (∃ e l, f.expiresAt = some e ∧ f.lastConfirmedAt = some l ∧
        now < e ∧ 0 < e - l)) ∧
    (∀ (i : Nat) (f : FactRow), st[i]? = some f →
      (FactsDB.decayCond now f = true →
        ((FactsDB.decayConfidence st now).1)[i]? =
          some { f with confidence :=
            FactsDB.decayedConf now (f.expiresAt.getD 0) (f.lastConfirmedAt.getD 0) }) ∧
      (FactsDB.decayCond now f = false →
        ((FactsDB.decayConfidence st now).1)[i]? = some f)) ∧
    (∀ now' e l, (1/20 : ℚ) ≤ FactsDB.decayedConf now' e l) ∧
    (∀ now1 now2 e l, now1 ≤ now2 → 0 < e - l →
      FactsDB.decayedConf now2 e l ≤ FactsDB.decayedConf now1 e l) ∧
    (FactsDB.decayConfidence st now).2 = (st.filter (FactsDB.decayCond now)).length := by
  refine ⟨by simp [FactsDB.decayConfidence], ?_, ?_, decayedConf_lower_bound,
          decayedConf_antitone, rfl⟩
  · intro f
    cases hexp : f.expiresAt with
    | none => simp [FactsDB.decayCond, hexp]
    | some e =>
        cases hl : f.lastConfirmedAt with
        | none => simp [FactsDB.decayCond, hexp, hl]
        | some l =>
            simp [FactsDB.decayCond, hexp, hl]
  · intro i f hf
    have hmap : ((FactsDB.decayConfidence st now).1)[i]? =
        some (FactsDB.decayRow now f) := by
      show (st.map (FactsDB.decayRow now))[i]? = some (FactsDB.decayRow now f)
      rw [List.getElem?_map, hf]
      rfl
    constructor
    · intro hcond
      rw [hmap]
      simp only [FactsDB.decayRow, hcond, if_true]
    · intro hcond
      rw [hmap]
      simp only [FactsDB.decayRow, hcond]
      rfl

theorem C6_decay_confidence_witness :
    ((FactsDB.decayConfidence [staleRow] 95).1)[0]? =
      some { staleRow with confidence := FactsDB.decayedConf 95 (staleRow.expiresAt.getD 0) (staleRow.lastConfirmedAt.getD 0) } :=
  (((C6_decay_confidence [staleRow] 95).2.2.1 0 staleRow (by decide)).1 (by decide))

theorem calculateExpiry_eq_none_iff (dc : DecayClass) (now : Int) :
    calculateExpiry dc now = none ↔ dc = .permanent := by
  cases dc <;> simp [calculateExpiry, TTL_DEFAULTS]

theorem decayRow_decayClass (now : Int) (f : FactRow) :
    (FactsDB.decayRow now f).decayClass = f.decayClass := by
  unfold FactsDB.decayRow
  split <;> rfl

theorem decayRow_expiresAt (now : Int) (f : FactRow) :
    (FactsDB.decayRow now f).expiresAt = f.expiresAt := by
  unfold FactsDB.decayRow
  split <;> rfl

/-- C7 counterexample: `store` accepts an explicit expiry independent of the
decay class; a candidate with decay class stable and an explicit null
expiresAt inserts a row that is stable yet never expires, so the invariant
is not preserved by every store call. -/
theorem C7_counterexample :
    (FactsDB.store [] cNullExpiry 100 "x1").1 =
      [FactsDB.insertRow cNullExpiry 100 "x1"] ∧
    (FactsDB.insertRow cNullExpiry 100 "x1").decayClass = .stable ∧
    (FactsDB.insertRow cNullExpiry 100 "x1").expiresAt = none ∧
    PermanentIffNever [] ∧
    ¬ PermanentIffNever ((FactsDB.store [] cNullExpiry 100 "x1").1) := by
  refine ⟨by decide, by decide, by decide, by simp [PermanentIffNever], ?_⟩
  intro h
  have hmem : FactsDB.insertRow cNullExpiry 100 "x1" ∈
      (FactsDB.store [] cNullExpiry 100 "x1").1 := by decide
  have h2 := (h _ hmem).mpr (by decide)
  exact absurd h2 (by decide)

/-- C7 (amended): the invariant (decayClass = permanent iff expiresAt =
never) is preserved by every lexical-store operation, with one proviso on
`store`: the candidate must not carry an explicit expiresAt (no caller in
the repository passes one together with an inconsistent class; an explicit
expiresAt can break the invariant, as the counterexample shows).
confirmFact additionally relies on id uniqueness, which the primary key
guarantees. -/
theorem C7_permanent_iff_never :
    (∀ (st : List FactRow) (c : StoreCandidate) (now : Int) (freshId : String),
      PermanentIffNever st → c.expiresAtOpt = none →
      PermanentIffNever ((FactsDB.store st c now freshId).1)) ∧
    (∀ (ids : List String) (now : Int) (st : List FactRow),
      PermanentIffNever st →
      PermanentIffNever (FactsDB.refreshAccessedFacts ids now st)) ∧
    (∀ (st : List FactRow) (now : Int),
      PermanentIffNever st →
      PermanentIffNever ((FactsDB.decayConfidence st now).1)) ∧
    (∀ (st : List FactRow) (id : String) (now : Int),
      PermanentIffNever st → (st.map (fun f => f.id)).Nodup →
      PermanentIffNever ((FactsDB.confirmFact st id now).1)) ∧
    (∀ (st : List FactRow) (now : Int),
      PermanentIffNever st →
      PermanentIffNever (FactsDB.backfillDecayClasses st now)) ∧
    (∀ (st : List FactRow) (id : String),
      PermanentIffNever st → PermanentIffNever ((FactsDB.delete st id).1)) ∧
    (∀ (st : List FactRow) (now : Int),
      PermanentIffNever st → PermanentIffNever ((FactsDB.pruneExpired st now).1)) := by
  have hover : ∀ (c : StoreCandidate) (now : Int), c.expiresAtOpt = none →
      (c.decayClassOf = .permanent ↔ c.expiresAtOf now = none) := by
    intro c now hexp
    rw [StoreCandidate.expiresAtOf, hexp]
    exact (calculateExpiry_eq_none_iff _ _).symm
  refine ⟨?_, ?_, ?_, ?_, ?_, ?_, ?_⟩
  · intro st c now freshId hInv hexp f hf
    have hins : f = FactsDB.insertRow c now freshId →
        (f.decayClass = .permanent ↔ f.expiresAt = none) := by
      rintro rfl
      exact hover c now hexp
    unfold FactsDB.store at hf
    by_cases hc : (truthyStr c.entity && truthyStr c.key) = true
    · rw [if_pos hc] at hf
      cases hfind : st.find? (ekMatch c) with
      | some ex =>
          rw [hfind] at hf
          rcases List.mem_map.mp hf with ⟨f0, hf0, hgf⟩
          by_cases hid : (f0.id == ex.id) = true
          · rw [if_pos hid] at hgf
            subst hgf
            exact hover c now hexp
          · rw [if_neg hid] at hgf
            subst hgf
            exact hInv f0 hf0
      | none =>
          rw [hfind] at hf
          rcases List.mem_append.mp hf with hf | hf
          · exact hInv f hf
          · exact hins (List.mem_singleton.mp hf)
    · rw [if_neg hc] at hf
      rcases List.mem_append.mp hf with hf | hf
      · exact hInv f hf
      · exact hins (List.mem_singleton.mp hf)
  · intro ids now st hInv f hf
    rw [refreshAccessedFacts_eq_map] at hf
    rcases List.mem_map.mp hf with ⟨f0, hf0, hgf⟩
    by_cases hc : (ids.contains f0.id && FactsDB.refreshCond now f0) = true
    · rw [if_pos hc] at hgf
      subst hgf
      simp only [Bool.and_eq_true] at hc
      have hcond := hc.2
      simp only [FactsDB.refreshCond, Bool.and_eq_true] at hcond
      have hcls := hcond.1
      cases hcls2 : f0.decayClass <;> rw [hcls2] at hcls <;>
        simp_all [FactsDB.refreshUpd, hcls2]
    · rw [if_neg hc] at hgf
      subst hgf
      exact hInv f0 hf0
  · intro st now hInv f hf
    rcases List.mem_map.mp hf with ⟨f0, hf0, hgf⟩
    subst hgf
    rw [decayRow_decayClass, decayRow_expiresAt]
    exact hInv f0 hf0
  · intro st id now hInv hnodup f hf
    unfold FactsDB.confirmFact at hf
    cases hfind : st.find? (fun f => f.id == id) with
    | none =>
        rw [hfind] at hf
        exact hInv f hf
    | some row =>
        rw [hfind] at hf
        rcases List.mem_map.mp hf with ⟨f0, hf0, hgf⟩
        by_cases hid : (f0.id == id) = true
        · rw [if_pos hid] at hgf
          subst hgf
          have hrowmem : row ∈ st := List.mem_of_find?_eq_some hfind
          have hrowid : (row.id == id) = true := by
            simpa using List.find?_some hfind
          have heq : f0 = row :=
            List.inj_on_of_nodup_map hnodup hf0 hrowmem
              (by rw [eq_of_beq hid, eq_of_beq hrowid])
          subst heq
          simpa using (calculateExpiry_eq_none_iff f0.decayClass now).symm
        · rw [if_neg hid] at hgf
          subst hgf
          exact hInv f0 hf0
  · intro st now hInv f hf
    rcases List.mem_map.mp hf with ⟨f0, hf0, hgf⟩
    unfold FactsDB.backfillRow at hgf
    by_cases hc : FactsDB.backfillCond f0 = true
    · rw [if_pos hc] at hgf
      by_cases hskip : (classifyDecay f0.entity f0.key f0.value f0.text == f0.decayClass
          && !f0.expiresAt.isNone) = true
      · rw [if_pos hskip] at hgf
        subst hgf
        exact hInv f0 hf0
      · rw [if_neg hskip] at hgf
        subst hgf
        simpa using (calculateExpiry_eq_none_iff _ now).symm
    · rw [if_neg hc] at hgf
      subst hgf
      exact hInv f0 hf0
  · intro st id hInv f hf
    exact hInv f (List.mem_of_mem_filter hf)
  · intro st now hInv f hf
    simp only [FactsDB.pruneExpired] at hf
    exact hInv f (List.mem_of_mem_filter hf)

theorem C7_permanent_iff_never_witness :
    PermanentIffNever ((FactsDB.store [permRow] cFredA 1000 "w1").1) ∧
    PermanentIffNever (FactsDB.refreshAccessedFacts ["s1"] 200 [stableRow]) ∧
    PermanentIffNever ((FactsDB.confirmFact [permRow] "p1" 300).1) :=
  ⟨C7_permanent_iff_never.1 [permRow] cFredA 1000 "w1"
     (by unfold PermanentIffNever; decide) rfl,
   C7_permanent_iff_never.2.1 ["s1"] 200 [stableRow]
     (by unfold PermanentIffNever; decide),
   C7_permanent_iff_never.2.2.2.1 [permRow] "p1" 300
     (by unfold PermanentIffNever; decide) (by decide)⟩

theorem deleteMany_foldl (ids : List String) (st0 : List VRec) (n0 : Nat) :
    ids.foldl
      (fun acc id =>
        if isUuidShaped id then (acc.1.filter (fun r => r.id != id), acc.2 + 1)
        else acc)
      (st0, n0) =
    (st0.filter (fun r => !(ids.any (fun i2 => isUuidShaped i2 && r.id == i2))),
     n0 + (ids.filter isUuidShaped).length) := by
  induction ids generalizing st0 n0 with
  | nil => simp
  | cons i is ih =>
      cases h : isUuidShaped i with
      | true =>
          rw [List.foldl_cons]
          simp only [h, if_true]
          rw [ih]
          refine congrArg₂ Prod.mk ?_ ?_
          · rw [List.filter_filter]
            apply List.filter_congr
            intro r _
            simp [h, bne, Bool.and_comm]
          · rw [List.filter_cons_of_pos (by rw [h])]
            simp only [List.length_cons]
            omega
      | false =>
          rw [List.foldl_cons]
          simp only [h, Bool.false_eq_true, if_false]
          rw [ih]
          refine congrArg₂ Prod.mk ?_ ?_
          · apply List.filter_congr
            intro r _
            simp [h]
          · rw [List.filter_cons_of_neg (by rw [h]; decide)]

/-- C8 counterexample: VectorDB.delete raises an error on an id that is not
shaped as a hex UUID, instead of silently skipping it as the claim states;
callers observe the exception (memory_forget catches it explicitly). -/
theorem C8_counterexample :
    VectorDB.delete ([] : List VRec) "abc" = Except.error "Invalid ID: abc" ∧
    isUuidShaped "abc" = false :=
  ⟨rfl, by decide⟩

/-- C8 (amended): deleteMany silently skips every id that is not shaped as
a hex UUID, attempts all the remaining ids past per-id errors, and returns
the count of UUID-shaped ids whose delete call went through (0 for an empty
input); delete, by contrast, raises an error on a non-UUID id and otherwise
removes the rows with that id and returns true. -/
theorem C8_vector_delete (st : List VRec) (ids : List String) (id : String) :
    (isUuidShaped id = false →
      VectorDB.delete st id = Except.error ("Invalid ID: " ++ id)) ∧
    (isUuidShaped id = true →
      VectorDB.delete st id = Except.ok (st.filter (fun r => r.id != id), true)) ∧
    VectorDB.deleteMany st [] = (st, 0) ∧
    (VectorDB.deleteMany st ids).2 = (ids.filter isUuidShaped).length ∧
    (VectorDB.deleteMany st ids).1 =
      st.filter (fun r => !(ids.any (fun i2 => isUuidShaped i2 && r.id == i2))) := by
  refine ⟨?_, ?_, rfl, ?_, ?_⟩
  · intro h
    simp [VectorDB.delete, h]
  · intro h
    simp [VectorDB.delete, h]
  · cases hids : ids with
    | nil => rfl
    | cons i is =>
        show ((i :: is).foldl _ (st, 0)).2 = _
        rw [deleteMany_foldl]
        simp
  · cases hids : ids with
    | nil => simp [VectorDB.deleteMany]
    | cons i is =>
        show ((i :: is).foldl _ (st, 0)).1 = _
        rw [deleteMany_foldl]

theorem C8_vector_delete_witness :
    VectorDB.delete [vr1] "zz" = Except.error "Invalid ID: zz" ∧
    VectorDB.delete [vr1] vr1.id =
      Except.ok ([vr1].filter (fun r => r.id != vr1.id), true) :=
  ⟨(C8_vector_delete [vr1] [] "zz").1 (by decide),
   (C8_vector_delete [vr1] [] vr1.id).2.1 (by decide)⟩

theorem mem_of_mem_dedupById {x : List SearchResult} {seen : List String}
    {r : SearchResult} (h : r ∈ dedupById x seen) : r ∈ x := by
  induction x generalizing seen with
  | nil => simp [dedupById] at h
  | cons a as ih =>
      simp only [dedupById] at h
      split at h
      · exact List.mem_cons_of_mem _ (ih h)
      · rcases List.mem_cons.mp h with rfl | h
        · exact List.mem_cons_self _ _
        · exact List.mem_cons_of_mem _ (ih h)

theorem dedupById_covers {x : List SearchResult} {seen : List String}
    {p : SearchResult} (hp : p ∈ x) (hseen : seen.contains p.entry.id = false) :
    ∃ m ∈ dedupById x seen, m.entry.id = p.entry.id := by
  induction x generalizing seen with
  | nil => simp at hp
  | cons a as ih =>
      simp only [dedupById]
      by_cases hc : seen.contains a.entry.id = true
      · rw [if_pos hc]
        rcases List.mem_cons.mp hp with rfl | hp2
        · rw [hc] at hseen; cases hseen
        · exact ih hp2 hseen
      · rw [if_neg hc]
        rcases List.mem_cons.mp hp with rfl | hp2
        · exact ⟨p, List.mem_cons_self _ _, rfl⟩
        · by_cases hid : p.entry.id = a.entry.id
          · exact ⟨a, List.mem_cons_self _ _, hid.symm⟩
          · have hseen2 : (a.entry.id :: seen).contains p.entry.id = false := by
              rw [List.contains_cons, hseen, beq_eq_false_iff_ne.mpr hid]
              rfl
            rcases ih hp2 hseen2 with ⟨m, hm, hmid⟩
            exact ⟨m, List.mem_cons_of_mem _ hm, hmid⟩

theorem dedupById_eq_foldl (x : List SearchResult) (seen : List String)
    (acc : List SearchResult)
    (hrel : ∀ a : String, seen.contains a = true ↔ ∃ m ∈ acc, m.entry.id = a) :
    x.foldl (fun acc r => if acc.any (fun m => m.entry.id == r.entry.id) then acc
                          else acc ++ [r]) acc
      = acc ++ dedupById x seen := by
  induction x generalizing seen acc with
  | nil => simp [dedupById]
  | cons r rs ih =>
      rw [List.foldl_cons]
      by_cases hdup : (acc.any (fun m => m.entry.id == r.entry.id)) = true
      · rw [if_pos hdup]
        have hseen : seen.contains r.entry.id = true := by
          rcases List.any_eq_true.mp hdup with ⟨m, hm, hmb⟩
          exact (hrel _).mpr ⟨m, hm, eq_of_beq hmb⟩
        simp only [dedupById, hseen, if_true]
        exact ih seen acc hrel
      · rw [if_neg hdup]
        have hseen : seen.contains r.entry.id = false := by
          cases hs : seen.contains r.entry.id with
          | false => rfl
          | true =>
              exfalso
              rcases (hrel _).mp hs with ⟨m, hm, hmid⟩
              exact hdup (List.any_eq_true.mpr ⟨m, hm, beq_iff_eq.mpr hmid⟩)
        simp only [dedupById, hseen, Bool.false_eq_true, if_false]
        rw [ih (r.entry.id :: seen) (acc ++ [r]) ?_]
        · rw [List.append_assoc]
          rfl
        · intro a
          rw [List.contains_cons]
          by_cases ha : a = r.entry.id
          · subst ha
            constructor
            · intro _
              exact ⟨r, by simp, rfl⟩
            · intro _
              simp
          · rw [beq_eq_false_iff_ne.mpr ha, Bool.false_or, hrel a]
            constructor
            · rintro ⟨m, hm, hmid⟩
              exact ⟨m, List.mem_append_left _ hm, hmid⟩
            · rintro ⟨m, hm, hmid⟩
              rcases List.mem_append.mp hm with hm | hm
              · exact ⟨m, hm, hmid⟩
              · exact absurd hmid.symm (by rcases List.mem_singleton.mp hm with rfl; exact ha)

theorem keepUniqueIds_eq_dedupById (x : List SearchResult) :
    keepUniqueIds x = dedupById x [] := by
  have h := dedupById_eq_foldl x [] [] (by simp)
  simpa [keepUniqueIds] using h

theorem specSurvivors_foldl (ys : List SearchResult) (kept acc0 : List SearchResult) :
    ys.foldl (fun acc r => if isDupeOf (kept ++ acc) r then acc else acc ++ [r]) acc0 =
      acc0 ++ specSurvivors (kept ++ acc0) ys := by
  induction ys generalizing kept acc0 with
  | nil => simp [specSurvivors]
  | cons r rs ih =>
      rw [List.foldl_cons]
      by_cases hd : isDupeOf (kept ++ acc0) r = true
      · rw [if_pos hd]
        rw [ih kept acc0]
        have hstep : specSurvivors (kept ++ acc0) (r :: rs) =
            specSurvivors (kept ++ acc0) rs := by
          simp only [specSurvivors, List.foldl_cons, List.append_nil, hd, if_true]
        rw [hstep]
      · rw [if_neg hd]
        rw [ih kept (acc0 ++ [r])]
        have hstep : specSurvivors (kept ++ acc0) (r :: rs) =
            [r] ++ specSurvivors ((kept ++ acc0) ++ [r]) rs := by
          simp only [specSurvivors, List.foldl_cons, List.append_nil, hd,
            Bool.false_eq_true, if_false, List.nil_append]
          have h2 := ih (kept ++ acc0) [r]
          simpa [specSurvivors] using h2
        rw [hstep]
        simp [List.append_assoc]

theorem addLance_eq (m ys : List SearchResult) :
    addLance m ys = m ++ specSurvivors m ys := by
  induction ys generalizing m with
  | nil => simp [addLance, specSurvivors]
  | cons r rs ih =>
      simp only [addLance]
      by_cases hd : isDupeOf m r = true
      · rw [if_pos hd, ih m]
        have hstep : specSurvivors m (r :: rs) = specSurvivors m rs := by
          simp only [specSurvivors, List.foldl_cons, List.append_nil, hd, if_true]
        rw [hstep]
      · rw [if_neg hd, ih (m ++ [r])]
        have hstep : specSurvivors m (r :: rs) =
            [r] ++ specSurvivors (m ++ [r]) rs := by
          simp only [specSurvivors, List.foldl_cons, List.append_nil, hd,
            Bool.false_eq_true, if_false]
          have h2 := specSurvivors_foldl rs m [r]
          simpa [specSurvivors] using h2
        rw [hstep, List.append_assoc]

theorem isDupeOf_append (a b : List SearchResult) (r : SearchResult) :
    isDupeOf (a ++ b) r = (isDupeOf a r || isDupeOf b r) := by
  simp [isDupeOf, List.any_append]

theorem mem_foldl_survivors {r : SearchResult} :
    ∀ (ys kept acc0 : List SearchResult),
    r ∈ ys.foldl (fun acc q => if isDupeOf (kept ++ acc) q then acc else acc ++ [q]) acc0 →
    r ∈ acc0 ∨ isDupeOf kept r = false := by
  intro ys
  induction ys with
  | nil => exact fun kept acc0 h => Or.inl h
  | cons q qs ih =>
      intro kept acc0 h
      rw [List.foldl_cons] at h
      rcases ih kept _ h with h2 | h2
      · by_cases hd : isDupeOf (kept ++ acc0) q = true
        · rw [if_pos hd] at h2
          exact Or.inl h2
        · rw [if_neg hd] at h2
          rcases List.mem_append.mp h2 with h3 | h3
          · exact Or.inl h3
          · rcases List.mem_singleton.mp h3 with rfl
            right
            cases hk : isDupeOf kept r with
            | false => rfl
            | true =>
                exfalso
                apply hd
                rw [isDupeOf_append, hk]
                rfl
      · exact Or.inr h2

theorem isDupeOf_false_of_mem_specSurvivors {kept ys : List SearchResult}
    {r : SearchResult} (h : r ∈ specSurvivors kept ys) : isDupeOf kept r = false := by
  rcases mem_foldl_survivors ys kept [] h with h2 | h2
  · simp at h2
  · exact h2

/-- C3: mergeResults implements exactly the four spec steps: keep the first
occurrence of each lexical id in order, drop every vector entry whose id or
case-folded text already appears among the kept entries, stable-sort the
survivors by score descending, and truncate to the limit; consequently any
returned entry whose id occurs in the lexical list is itself a lexical
entry, whatever the scores were. -/
theorem C3_merge_results (x y : List SearchResult) (limit : Nat) :
    mergeResults x y limit = mergeResultsSpec x y limit ∧
    (∀ r ∈ mergeResults x y limit, (∃ p ∈ x, p.entry.id = r.entry.id) → r ∈ x) := by
  constructor
  · show (sortScoreDesc (addLance (dedupById x []) y)).take limit = _
    rw [addLance_eq]
    show _ = (sortScoreDesc (keepUniqueIds x ++ specSurvivors (keepUniqueIds x) y)).take limit
    rw [keepUniqueIds_eq_dedupById]
  · intro r hr hex
    have hr1 : r ∈ addLance (dedupById x []) y :=
      mem_sortScoreDesc.mp (List.mem_of_mem_take hr)
    rw [addLance_eq] at hr1
    rcases List.mem_append.mp hr1 with h2 | h2
    · exact mem_of_mem_dedupById h2
    · exfalso
      rcases hex with ⟨p, hp, hpid⟩
      rcases @dedupById_covers x [] p hp rfl with ⟨m, hm, hmid⟩
      have hdup : isDupeOf (dedupById x []) r = true := by
        apply List.any_eq_true.mpr
        exact ⟨m, hm, by rw [show m.entry.id = r.entry.id from hmid.trans hpid]; simp⟩
      rw [isDupeOf_false_of_mem_specSurvivors h2] at hdup
      cases hdup

theorem C3_merge_results_witness :
    mergeResults [srLexA] [srVecA] 5 = mergeResultsSpec [srLexA] [srVecA] 5 ∧
    srLexA ∈ ([srLexA] : List SearchResult) :=
  ⟨(C3_merge_results [srLexA] [srVecA] 5).1,
   (C3_merge_results [srLexA] [srVecA] 5).2 srLexA (by decide)
     ⟨srLexA, by decide, rfl⟩⟩

/-- C10 counterexample: the two classifiers disagree at (entity null, key
"stack", value null, text empty); `stack` is in the permanent key list of
the current classifier only. -/
theorem C10_counterexample :
    ¬ (∀ (entity key value : Option String) (text : String),
        classifyDecayLegacy entity key value text =
          classifyDecay entity key value text) :=
  fun h => absurd (h none (some "stack") none "") (by decide)

/-- C10 (amended): the legacy classifier of src/index.ts and the current
classifier of src/unnamed/part_000 are not equivalent; they differ for
example on key "stack" (permanent vs stable) and on a text containing a
bare "always" (the current permanent text regex admits bare always and
never, the legacy one does not). -/
theorem C10_classifiers_differ :
    classifyDecay none (some "stack") none "" = .permanent ∧
    classifyDecayLegacy none (some "stack") none "" = .stable ∧
    classifyDecay none none none "we always deploy on friday" = .permanent ∧
    classifyDecayLegacy none none none "we always deploy on friday" = .stable ∧
    classifyDecayLegacy ≠ classifyDecay := by
  refine ⟨by decide, by decide, by decide, by decide, ?_⟩
  intro h
  have h2 : classifyDecayLegacy none (some "stack") none "" =
      classifyDecay none (some "stack") none "" := by rw [h]
  exact absurd h2 (by decide)
